import Mathlib

/-!
Verification of the Block data-explorer pipeline (`Block.py`).

The file shallowly embeds the data model and the operations of the
pipeline: record ingestion with schema injection, composite-ID
deduplication, tolerant timestamp normalization, derived minute metrics,
exact-match plus substring filtering, grouped aggregation, and the
HH:MM display formatter.  Cells are `Option String` (pandas `NaN`/`NA`
is `none`), canonical timestamps are epoch seconds (`Int`), and minute
metrics are rationals (`Rat`), so every definition is executable.
-/

set_option autoImplicit false

namespace Block

/-! ### Raw rows (one merged CSV row, after null-token substitution) -/

/-- One merged row with the seventeen expected columns; every cell is
`Option String` — `none` models a pandas null produced by the
`na_values` token list of `pd.read_csv` (`Block.py` lines 21-25). -/
structure RawRow where
  mk ::
  board : Option String
  station : Option String
  blockSection : Option String
  direction : Option String
  typeCol : Option String
  reqStartRaw : Option String
  reqEndRaw : Option String
  permStartRaw : Option String
  permEndRaw : Option String
  lineNumber : Option String
  remark : Option String
  extensionEndTime : Option String
  clearTimeRaw : Option String
  totalDuration : Option String
  burstDuration : Option String
  division : Option String
  blockReqDate : Option String
deriving DecidableEq, Repr

/-- Textual form of a cell, as pandas `.astype(str)` renders it: a null
cell becomes the literal placeholder string `nan`. -/
def cellStr : Option String → String
  | none => "nan"
  | some s => s

/-- The composite `ID` column (`Block.py` lines 44-52): Station,
Block Section twice, then the four raw requested/permitted time cells,
joined by `/`. -/
def mkID (r : RawRow) : String :=
  cellStr r.station ++ "/" ++
  cellStr r.blockSection ++ "/" ++
  cellStr r.blockSection ++ "/" ++
  cellStr r.reqStartRaw ++ "/" ++
  cellStr r.reqEndRaw ++ "/" ++
  cellStr r.permStartRaw ++ "/" ++
  cellStr r.permEndRaw

/-- Join a list of strings with a separator (the spec's phrasing of the
Identity key: components "concatenated with a fixed separator"). -/
def joinSep (sep : String) : List String → String
  | [] => ""
  | [x] => x
  | x :: xs => x ++ sep ++ joinSep sep xs

/-- Keyed first-occurrence deduplication, the semantics of pandas
`drop_duplicates(subset=[k], keep="first")` (`Block.py` line 55): walk
the list keeping a record only when its key has not been seen before. -/
def dedupByGo {α β : Type} [DecidableEq β] (f : α → β) (seen : List β) : List α → List α
  | [] => []
  | a :: as =>
    if f a ∈ seen then dedupByGo f seen as
    else a :: dedupByGo f (f a :: seen) as

/-- First-occurrence deduplication keyed by `f`, starting from no seen keys. -/
def dedupBy {α β : Type} [DecidableEq β] (f : α → β) (l : List α) : List α :=
  dedupByGo f [] l

/-- `drop_duplicates(subset=["ID"], keep="first")` on the merged rows. -/
def dropDupsByID (l : List RawRow) : List RawRow :=
  dedupBy mkID l

/-- Spec-side formulation of keyed dedup ("keeps the first record for
each distinct Identity value and discards all later ones"): keep the
head, delete every later element with the same key, recurse. -/
def keepFirstBy {α β : Type} [DecidableEq β] (f : α → β) : List α → List α
  | [] => []
  | a :: as => a :: keepFirstBy f (as.filter (fun x => f x ≠ f a))
termination_by l => l.length
decreasing_by
  simp only [List.length_cons]
  exact Nat.lt_succ_of_le (List.length_filter_le _ _)

/-- Spec-side formulation of the deduplicator on merged rows. -/
def firstOccSpec (l : List RawRow) : List RawRow :=
  keepFirstBy mkID l

/-! ### Column-indexed frames and expected-schema injection -/

/-- A merged frame viewed by columns: a list of column names and rows
aligned positionally with those names.  This models the DataFrame shape
that the expected-column loop of `Block.py` lines 31-41 operates on. -/
structure Df where
  mk ::
  cols : List String
  rows : List (List (Option String))
deriving DecidableEq, Repr

/-- The fixed expected-schema column list (`Block.py` lines 31-38). -/
def expectedCols : List String :=
  ["Board", "Station", "Block Section", "Direction", "Type",
   "Requested Start Time", "Requested End Time",
   "Permitted Start Time", "Permitted End Time",
   "Line Number", "Remark", "Extension End Time", "Clear Time",
   "Total Duration (In Minutes)", "Burst Duration (In Minutes)",
   "Division", "Block Requested Date"]

/-- Look a column name up in an aligned (names, cells) pair of lists;
`none` when the column is absent. -/
def cellAt : List String → List (Option String) → String → Option (Option String)
  | c0 :: cs, v :: vs, c => if c = c0 then some v else cellAt cs vs c
  | _, _, _ => none

/-- Cell of row `i`, column `c`; `none` when the row or column is absent. -/
def getCell (df : Df) (i : Nat) (c : String) : Option (Option String) :=
  match df.rows.get? i with
  | some r => cellAt df.cols r c
  | none => none

/-- Well-formedness: every row has exactly one cell per column. -/
def Df.WF (df : Df) : Prop :=
  ∀ r ∈ df.rows, r.length = df.cols.length

/-- One step of the expected-column loop: `if c not in df.columns:
df_merged[c] = pd.NA` appends an all-null column. -/
def addMissing (df : Df) (c : String) : Df :=
  if c ∈ df.cols then df
  else Df.mk (df.cols ++ [c]) (df.rows.map (fun r => r ++ [none]))

/-- The whole expected-column loop of `Block.py` lines 39-41. -/
def ensureExpected (df : Df) : Df :=
  expectedCols.foldl addMissing df

/-! ### Temporal normalizer (`Block.py` lines 58-70)

`pd.to_datetime(col, errors="coerce", dayfirst=True)` is modelled for
the delimited numeric date(-time) family the sources use — `d/m/y` or
`d-m-y` or ISO `y-m-d`, with an optional `h:m` or `h:m:s` part — with
day-first preference on ambiguous two-field-order dates and `none` for
anything unparseable, matching `errors="coerce"`.  A canonical timestamp
is its epoch second count (`Int`). -/

/-- Characters stripped by `.str.strip()`. -/
def wsChar (c : Char) : Bool := c.isWhitespace

/-- Strip leading and trailing whitespace from a character list. -/
def trimL (l : List Char) : List Char :=
  ((l.dropWhile wsChar).reverse.dropWhile wsChar).reverse

/-- Split a character list on a separator character. -/
def splitOnChar (sep : Char) : List Char → List (List Char)
  | [] => [[]]
  | c :: cs =>
    if c = sep then [] :: splitOnChar sep cs
    else
      match splitOnChar sep cs with
      | [] => [[c]]
      | g :: gs => (c :: g) :: gs

/-- Parse a non-empty all-digit character list as a `Nat`. -/
def natOfDigits : List Char → Option Nat
  | [] => none
  | l =>
    l.foldl
      (fun acc c =>
        match acc with
        | some a => if c.isDigit then some (a * 10 + (c.toNat - 48)) else none
        | none => none)
      (some 0)

/-- Gregorian leap-year test. -/
def leapYear (y : Nat) : Bool :=
  (y % 4 = 0 && y % 100 ≠ 0) || y % 400 = 0

/-- Days in a month of a given year. -/
def daysInMonth (y m : Nat) : Nat :=
  if m = 2 then (if leapYear y then 29 else 28)
  else if m = 4 || m = 6 || m = 9 || m = 11 then 30
  else 31

/-- Is `(d, m, y)` a valid day-month-year calendar date? -/
def validDMY (d m y : Nat) : Bool :=
  1 ≤ y && 1 ≤ m && m ≤ 12 && 1 ≤ d && d ≤ daysInMonth y m

/-- Resolve two-field-order ambiguity with `dayfirst=True`: interpret
`(a, b)` as day `a`, month `b` whenever that is a valid date, falling
back to month `a`, day `b`; `none` when neither reading is valid.
Returns `(day, month)`. -/
def resolveDM (a b y : Nat) : Option (Nat × Nat) :=
  if validDMY a b y then some (a, b)
  else if validDMY b a y then some (b, a)
  else none

/-- Day count since the 1970-01-01 epoch of a civil date (standard
era/year-of-era computation; valid for years ≥ 1). -/
def daysFromCivil (y m d : Nat) : Int :=
  let yy : Int := if m ≤ 2 then (y : Int) - 1 else (y : Int)
  let era : Int := yy / 400
  let yoe : Int := yy - era * 400
  let mp : Int := ((m : Int) + 9) % 12
  let doy : Int := (153 * mp + 2) / 5 + (d : Int) - 1
  let doe : Int := yoe * 365 + yoe / 4 - yoe / 100 + doy
  era * 146097 + doe - 719468

/-- Epoch seconds of a civil date plus a second-of-day offset. -/
def epochOf (y m d secs : Nat) : Int :=
  daysFromCivil y m d * 86400 + (secs : Int)

/-- Parse the date part: `d/m/y`, `d-m-y` (day-first preferred) or ISO
`y-m-d` / `y/m/d` when the first group has four digits. -/
def parseDatePart (l : List Char) : Option (Nat × Nat × Nat) :=
  let groups := if l.contains '/' then splitOnChar '/' l else splitOnChar '-' l
  match groups with
  | [g1, g2, g3] =>
    match natOfDigits g1, natOfDigits g2, natOfDigits g3 with
    | some a, some b, some c =>
      if g1.length = 4 then
        if validDMY c b a then some (a, b, c) else none
      else
        match resolveDM a b c with
        | some (d, m) => some (c, m, d)
        | none => none
    | _, _, _ => none
  | _ => none

/-- Parse the time-of-day part `h:m` or `h:m:s` into seconds. -/
def parseTimePart (l : List Char) : Option Nat :=
  match splitOnChar ':' l with
  | [gh, gm] =>
    match natOfDigits gh, natOfDigits gm with
    | some h, some m => if h ≤ 23 && m ≤ 59 then some (h * 3600 + m * 60) else none
    | _, _ => none
  | [gh, gm, gs] =>
    match natOfDigits gh, natOfDigits gm, natOfDigits gs with
    | some h, some m, some s =>
      if h ≤ 23 && m ≤ 59 && s ≤ 59 then some (h * 3600 + m * 60 + s) else none
    | _, _, _ => none
  | _ => none

/-- Tolerant timestamp parser: a date, optionally followed by a single
space and a time of day; any failure yields `none`. -/
def parseDT (l : List Char) : Option Int :=
  match splitOnChar ' ' l with
  | [d] =>
    match parseDatePart d with
    | some (y, m, dd) => some (epochOf y m dd 0)
    | none => none
  | [d, t] =>
    match parseDatePart d, parseTimePart t with
    | some (y, m, dd), some secs => some (epochOf y m dd secs)
    | _, _ => none
  | _ => none

/-- One cell of a time column (`Block.py` lines 63-70): strip
surrounding whitespace, re-apply the `-`/`--` null tokens, then parse
with coercion to `none` on failure. -/
def parseCell (l : List Char) : Option Int :=
  let t := trimL l
  if t = ['-'] ∨ t = ['-', '-'] then none else parseDT t

/-- A whole (nullable) time cell. -/
def cleanParse : Option String → Option Int
  | none => none
  | some s => parseCell s.data

/-! ### Normalized rows and derived metrics (`Block.py` lines 58-85) -/

/-- A row after deduplication and temporal normalization: the six
columns listed in `time_cols` (`Block.py` lines 58-62) hold canonical
timestamps, every other column keeps its raw textual cell — in
particular `Extension End Time`, which `time_cols` does not include. -/
structure NormRow where
  mk ::
  board : Option String
  station : Option String
  blockSection : Option String
  direction : Option String
  typeCol : Option String
  lineNumber : Option String
  division : Option String
  remark : Option String
  extensionEndTime : Option String
  totalDuration : Option String
  burstDuration : Option String
  reqStart : Option Int
  reqEnd : Option Int
  permStart : Option Int
  permEnd : Option Int
  clearTime : Option Int
  blockReqDate : Option Int
  id : String
deriving DecidableEq, Repr

/-- Normalize one deduplicated row: parse exactly the six `time_cols`
columns, keep everything else raw, carry the `ID` column along. -/
def normalizeRow (r : RawRow) : NormRow :=
  NormRow.mk r.board r.station r.blockSection r.direction r.typeCol
    r.lineNumber r.division r.remark r.extensionEndTime
    r.totalDuration r.burstDuration
    (cleanParse r.reqStartRaw) (cleanParse r.reqEndRaw)
    (cleanParse r.permStartRaw) (cleanParse r.permEndRaw)
    (cleanParse r.clearTimeRaw) (cleanParse r.blockReqDate)
    (mkID r)

/-- Difference of two nullable timestamps in minutes:
`(end - start).dt.total_seconds().div(60)` with `NaT` propagating. -/
def diffMinutes : Option Int → Option Int → Option Rat
  | some e, some s => some (((e - s : Int) : Rat) / 60)
  | _, _ => none

/-- Nullable subtraction of two minute metrics (`NaN` propagates). -/
def osub : Option Rat → Option Rat → Option Rat
  | some a, some b => some (a - b)
  | _, _ => none

/-- `Demanded` (`Block.py` lines 73-76). -/
def demanded (r : NormRow) : Option Rat := diffMinutes r.reqEnd r.reqStart

/-- `Granted` (`Block.py` lines 77-80). -/
def granted (r : NormRow) : Option Rat := diffMinutes r.permEnd r.permStart

/-- `Availed` (`Block.py` lines 81-84). -/
def availed (r : NormRow) : Option Rat := diffMinutes r.clearTime r.permStart

/-- `Burst = Granted - Availed` (`Block.py` line 85). -/
def burst (r : NormRow) : Option Rat := osub (granted r) (availed r)

/-! ### Filter engine (`Block.py` lines 143-185) -/

/-- The eight exact-match filter labels of `filters_map`. -/
inductive FilterLabel : Type
  | boardL | stationL | blockSectionL | directionL | typeL
  | lineNumberL | remarkL | divisionL
deriving DecidableEq, Repr

/-- The iteration order of `filters_map` (insertion order of the dict). -/
def filterLabels : List FilterLabel :=
  [.boardL, .stationL, .blockSectionL, .directionL, .typeL,
   .lineNumberL, .remarkL, .divisionL]

/-- The column a filter label reads (`filters_map` maps each label to
the identically named column). -/
def fieldOf (r : NormRow) : FilterLabel → Option String
  | .boardL => r.board
  | .stationL => r.station
  | .blockSectionL => r.blockSection
  | .directionL => r.direction
  | .typeL => r.typeCol
  | .lineNumberL => r.lineNumber
  | .remarkL => r.remark
  | .divisionL => r.division

/-- ASCII-lowercase a character list (the effect of `case=False`). -/
def lowerChars (l : List Char) : List Char := l.map Char.toLower

/-- Does `pat` occur as a prefix of `text`? -/
def leadsWith : List Char → List Char → Bool
  | [], _ => true
  | _ :: _, [] => false
  | p :: ps, t :: ts => p == t && leadsWith ps ts

/-- Does `pat` occur as a contiguous sublist of `text`?  This is the
semantics of `str.contains(re.escape(q), ...)`: `re.escape` makes the
query a literal, so the match is plain substring containment. -/
def occursIn (pat : List Char) : List Char → Bool
  | [] => pat.isEmpty
  | t :: ts => leadsWith pat (t :: ts) || occursIn pat ts

/-- Case-insensitive literal substring test on strings. -/
def containsCI (hay q : String) : Bool :=
  occursIn (lowerChars q.data) (lowerChars hay.data)

/-- One row against the Remark search predicate: `str.contains(
re.escape(q), case=False, na=False)` — a null Remark never matches. -/
def remarkMatches (q : String) (r : NormRow) : Bool :=
  match r.remark with
  | none => false
  | some s => containsCI s q

/-- The Remark predicate as it acts on `df_view`: an empty query is
falsy in Python, so no search filter is applied at all. -/
def remarkPass (q : String) (r : NormRow) : Bool :=
  if q = "" then true else remarkMatches q r

/-- The exact-match filter loop of `Block.py` lines 176-179: for each
label in turn, when its selection list is non-empty keep exactly the
rows whose stringified cell is among the selections. -/
def applyExact (sel : FilterLabel → List String) (rows : List NormRow) : List NormRow :=
  filterLabels.foldl
    (fun acc lab =>
      if (sel lab).isEmpty then acc
      else acc.filter (fun r => (sel lab).contains (cellStr (fieldOf r lab))))
    rows

/-- `df_view` (`Block.py` lines 175-185): the exact-match loop followed
by the Remark search filter, which is skipped for an empty query. -/
def dfView (rows : List NormRow) (sel : FilterLabel → List String) (q : String) : List NormRow :=
  let v := applyExact sel rows
  if q = "" then v else v.filter (remarkMatches q)

/-- The state with no selection in any filter widget. -/
def noSelections : FilterLabel → List String := fun _ => []

/-- The conjunctive single-pass predicate the spec describes: every
label with a non-empty accepted set must accept the row's stringified
cell, and the Remark predicate must pass. -/
def passesAll (sel : FilterLabel → List String) (q : String) (r : NormRow) : Bool :=
  (filterLabels.all fun lab =>
    (sel lab).isEmpty || (sel lab).contains (cellStr (fieldOf r lab)))
  && remarkPass q r

/-- The table written to `BlockAllData.csv` on each recomputation
(`Block.py` line 253): the current `df_view`. -/
def snapshotExport (rows : List NormRow) (sel : FilterLabel → List String) (q : String) : List NormRow :=
  dfView rows sel q

/-! ### Aggregator (`Block.py` lines 231-246) -/

/-- Key tuple of a row under an ordered list of group-by accessors. -/
def keyOf {R : Type} (ks : List (R → Option String)) (r : R) : List (Option String) :=
  ks.map (fun k => k r)

/-- The distinct key tuples of a row list, `dropna=False`: a null cell
is an ordinary key value, so null rows form groups like any others. -/
def groupKeys {R : Type} (ks : List (R → Option String)) (rows : List R) : List (List (Option String)) :=
  dedupBy id (rows.map (keyOf ks))

/-- The rows of one group. -/
def groupOf {R : Type} (ks : List (R → Option String)) (k : List (Option String)) (rows : List R) : List R :=
  rows.filter (fun r => keyOf ks r == k)

/-- Sum of the non-null values of a metric over a group (pandas `sum`
skips nulls; an all-null group sums to `0`). -/
def sumMetric {R : Type} (m : R → Option Rat) (g : List R) : Rat :=
  (g.filterMap m).sum

/-- One grouped output row: the group's cardinality (`gb.size()`), its
key tuple, and the sums of the requested metrics. -/
structure GRow where
  mk ::
  rowsCount : Nat
  key : List (Option String)
  sums : List Rat
deriving DecidableEq, Repr

/-- The grouped table (`Block.py` lines 234-240): one row per distinct
key tuple, carrying `gb.size()` and one skip-null sum per requested
metric.  Groups are enumerated in first-occurrence order; the spec
leaves cross-group ordering implementation-defined. -/
def groupedTable {R : Type} (ks : List (R → Option String)) (ms : List (R → Option Rat))
    (rows : List R) : List GRow :=
  (groupKeys ks rows).map fun k =>
    GRow.mk (groupOf ks k rows).length k (ms.map fun m => sumMetric m (groupOf ks k rows))

/-- Display column order of the grouped table (`Block.py` lines
240-246): `reset_index` lays out group columns, then metric sums, then
the appended `Rows`; the display step then moves `Rows` to the front. -/
def displayColumns (gcols ms : List String) : List String :=
  let base := gcols ++ ms ++ ["Rows"]
  "Rows" :: base.filter (fun c => c != "Rows")

/-! ### Formatter (`Block.py` lines 90-96) -/

/-- Python `round`: round half to even (banker's rounding). -/
def pyRound (q : Rat) : Int :=
  if q - (q.floor : Rat) < 1 / 2 then q.floor
  else if 1 / 2 < q - (q.floor : Rat) then q.floor + 1
  else if q.floor % 2 = 0 then q.floor else q.floor + 1

/-- Python `f"{n:02d}"`: decimal rendering zero-padded to width two,
the sign counting toward the width. -/
def pad2 (n : Int) : String :=
  let s := toString n
  if s.length < 2 then "0" ++ s else s

/-- `minutes_to_hhmm` (`Block.py` lines 90-96): null formats to the
empty string; otherwise round to the nearest whole minute and split
with Python's floor `divmod` into hours and minutes. -/
def minutes_to_hhmm : Option Rat → String
  | none => ""
  | some m =>
    let t := pyRound m
    pad2 (Int.fdiv t 60) ++ ":" ++ pad2 (Int.fmod t 60)

/-! ### Lemmas: keyed first-occurrence deduplication -/

theorem dedupByGo_sublist {α β : Type} [DecidableEq β] (f : α → β) :
    ∀ (l : List α) (seen : List β), (dedupByGo f seen l).Sublist l := by
  intro l
  induction l with
  | nil => intro seen; simp [dedupByGo]
  | cons a as ih =>
    intro seen
    by_cases h : f a ∈ seen
    · simpa [dedupByGo, h] using (ih seen).cons a
    · simpa [dedupByGo, h] using (ih (f a :: seen)).cons₂ a

theorem dedupByGo_fresh {α β : Type} [DecidableEq β] (f : α → β) :
    ∀ (l : List α) (seen : List β) (a : α),
      a ∈ dedupByGo f seen l → f a ∉ seen := by
  intro l
  induction l with
  | nil => intro seen a ha; simp [dedupByGo] at ha
  | cons x xs ih =>
    intro seen a ha
    by_cases h : f x ∈ seen
    · simp only [dedupByGo, if_pos h] at ha
      exact ih seen a ha
    · simp only [dedupByGo, if_neg h, List.mem_cons] at ha
      rcases ha with rfl | ha
      · exact h
      · have := ih (f x :: seen) a ha
        exact fun hs => this (List.mem_cons_of_mem _ hs)

theorem dedupByGo_map_nodup {α β : Type} [DecidableEq β] (f : α → β) :
    ∀ (l : List α) (seen : List β), ((dedupByGo f seen l).map f).Nodup := by
  intro l
  induction l with
  | nil => intro seen; simp [dedupByGo]
  | cons x xs ih =>
    intro seen
    by_cases h : f x ∈ seen
    · simpa [dedupByGo, h] using ih seen
    · simp only [dedupByGo, if_neg h, List.map_cons, List.nodup_cons]
      refine ⟨?_, ih (f x :: seen)⟩
      intro hmem
      rcases List.mem_map.mp hmem with ⟨a, ha, hfa⟩
      exact dedupByGo_fresh f xs (f x :: seen) a ha (hfa ▸ List.mem_cons_self _ _)

theorem dedupByGo_eq_self {α β : Type} [DecidableEq β] (f : α → β) :
    ∀ (l : List α) (seen : List β),
      (∀ a ∈ l, f a ∉ seen) → (l.map f).Nodup → dedupByGo f seen l = l := by
  intro l
  induction l with
  | nil => intro seen _ _; rfl
  | cons x xs ih =>
    intro seen hfresh hnodup
    have hx : f x ∉ seen := hfresh x (List.mem_cons_self _ _)
    simp only [List.map_cons, List.nodup_cons] at hnodup
    simp only [dedupByGo, if_neg hx]
    refine congrArg (x :: ·) (ih (f x :: seen) ?_ hnodup.2)
    intro a ha
    simp only [List.mem_cons]
    rintro (heq | hseen)
    · exact hnodup.1 (heq ▸ List.mem_map_of_mem f ha)
    · exact hfresh a (List.mem_cons_of_mem _ ha) hseen

theorem dedupBy_idem {α β : Type} [DecidableEq β] (f : α → β) (l : List α) :
    dedupBy f (dedupBy f l) = dedupBy f l := by
  refine dedupByGo_eq_self f (dedupBy f l) [] ?_ ?_
  · intro a _; simp
  · exact dedupByGo_map_nodup f l []

theorem dedupByGo_eq_keepFirstBy {α β : Type} [DecidableEq β] (f : α → β) :
    ∀ (l : List α) (seen : List β),
      dedupByGo f seen l = keepFirstBy f (l.filter (fun a => f a ∉ seen)) := by
  intro l
  induction l with
  | nil => intro seen; simp [dedupByGo, keepFirstBy]
  | cons x xs ih =>
    intro seen
    by_cases h : f x ∈ seen
    · simpa [dedupByGo, h, List.filter_cons] using ih seen
    · simp only [dedupByGo, if_neg h, List.filter_cons, decide_not, h, decide_False,
        Bool.not_false, if_true, ih (f x :: seen)]
      rw [keepFirstBy]
      refine congrArg (x :: keepFirstBy f ·) ?_
      rw [List.filter_filter]
      refine List.filter_congr ?_
      intro a _
      simp [List.mem_cons, not_or, Bool.and_comm, and_comm, decide_eq_true_eq]

theorem dedupBy_eq_keepFirstBy {α β : Type} [DecidableEq β] (f : α → β) (l : List α) :
    dedupBy f l = keepFirstBy f l := by
  rw [dedupBy, dedupByGo_eq_keepFirstBy]
  refine congrArg (keepFirstBy f) ?_
  refine List.filter_eq_self.mpr ?_
  intro a _
  simp

/-! ### C1 and C9: identity key and deduplication -/

/-- C1: the derived Identity of a record is the `/`-separated
concatenation of the textual forms of Station, Block Section (twice),
and the four requested/permitted time cells, with a null cell rendered
as the literal placeholder `nan` rather than omitted; deduplication
keeps exactly the first record in merged order for each distinct
Identity value, discards all later ones, and keeps the relative order
of the retained records (the result is a sublist of the input). -/
theorem C1_identity_dedup :
    (∀ r : RawRow,
        mkID r = joinSep "/"
          [cellStr r.station, cellStr r.blockSection, cellStr r.blockSection,
           cellStr r.reqStartRaw, cellStr r.reqEndRaw,
           cellStr r.permStartRaw, cellStr r.permEndRaw])
    ∧ cellStr none = "nan"
    ∧ (∀ s : String, cellStr (some s) = s)
    ∧ (∀ l : List RawRow, dropDupsByID l = firstOccSpec l)
    ∧ (∀ l : List RawRow, (dropDupsByID l).Sublist l) := by
  refine ⟨?_, rfl, fun s => rfl, ?_, ?_⟩
  · intro r
    simp [mkID, joinSep, String.append_assoc]
  · intro l
    exact dedupBy_eq_keepFirstBy mkID l
  · intro l
    exact dedupByGo_sublist mkID l []

/-- C9: the Ingestor→Deduplicator pipeline is idempotent — re-running
identity computation plus first-occurrence deduplication on an already
deduplicated record set leaves it unchanged (rows and order). -/
theorem C9_dedup_idempotent :
    ∀ l : List RawRow, dropDupsByID (dropDupsByID l) = dropDupsByID l := by
  intro l
  exact dedupBy_idem mkID l

/-! ### Lemmas: aligned column lookup and the expected-column loop -/

theorem cellAt_found_append (cs2 : List String) (r2 : List (Option String)) (c : String)
    (v : Option String) :
    ∀ (cols : List String) (r : List (Option String)),
      cellAt cols r c = some v → cellAt (cols ++ cs2) (r ++ r2) c = some v := by
  intro cols
  induction cols with
  | nil => intro r h; cases r <;> simp [cellAt] at h
  | cons c0 cs ih =>
    intro r h
    cases r with
    | nil => simp [cellAt] at h
    | cons v0 vs =>
      by_cases hc : c = c0
      · simp only [cellAt, if_pos hc] at h
        simpa [cellAt, hc] using h
      · simp only [cellAt, if_neg hc] at h
        simpa [cellAt, hc] using ih vs h

theorem cellAt_none_append (cs2 : List String) (r2 : List (Option String)) (c : String) :
    ∀ (cols : List String) (r : List (Option String)),
      r.length = cols.length → cellAt cols r c = none →
      cellAt (cols ++ cs2) (r ++ r2) c = cellAt cs2 r2 c := by
  intro cols
  induction cols with
  | nil =>
    intro r hlen _
    have : r = [] := List.length_eq_zero.mp hlen
    subst this
    rfl
  | cons c0 cs ih =>
    intro r hlen hn
    cases r with
    | nil => simp at hlen
    | cons v0 vs =>
      by_cases hc : c = c0
      · simp [cellAt, hc] at hn
      · simp only [cellAt, if_neg hc] at hn
        simp only [List.cons_append, cellAt, if_neg hc]
        exact ih vs (by simpa using hlen) hn

theorem cellAt_not_mem (c : String) :
    ∀ (cols : List String) (r : List (Option String)),
      c ∉ cols → cellAt cols r c = none := by
  intro cols
  induction cols with
  | nil => intro r _; cases r <;> rfl
  | cons c0 cs ih =>
    intro r hc
    cases r with
    | nil => rfl
    | cons v0 vs =>
      have h1 : ¬ c = c0 := fun h => hc (h ▸ List.mem_cons_self _ _)
      simp only [cellAt, if_neg h1]
      exact ih vs (fun h => hc (List.mem_cons_of_mem _ h))

theorem cellAt_mem_isSome (c : String) :
    ∀ (cols : List String) (r : List (Option String)),
      c ∈ cols → r.length = cols.length → ∃ v, cellAt cols r c = some v := by
  intro cols
  induction cols with
  | nil => intro r h; simp at h
  | cons c0 cs ih =>
    intro r hc hlen
    cases r with
    | nil => simp at hlen
    | cons v0 vs =>
      by_cases h : c = c0
      · exact ⟨v0, by simp [cellAt, h]⟩
      · have hc' : c ∈ cs := by
          rcases List.mem_cons.mp hc with h1 | h1
          · exact absurd h1 h
          · exact h1
        rcases ih vs hc' (by simpa using hlen) with ⟨v, hv⟩
        exact ⟨v, by simpa [cellAt, h] using hv⟩

theorem addMissing_rows_length (df : Df) (c : String) :
    (addMissing df c).rows.length = df.rows.length := by
  unfold addMissing
  split <;> simp

theorem addMissing_wf (df : Df) (c : String) (h : df.WF) : (addMissing df c).WF := by
  unfold addMissing
  split
  · exact h
  · intro r hr
    simp only [List.mem_map] at hr
    rcases hr with ⟨r0, hr0, rfl⟩
    simp [h r0 hr0]

theorem addMissing_cols_mono (df : Df) (c c' : String) (h : c' ∈ df.cols) :
    c' ∈ (addMissing df c).cols := by
  unfold addMissing
  split
  · exact h
  · simp [h]

theorem addMissing_mem_self (df : Df) (c : String) : c ∈ (addMissing df c).cols := by
  unfold addMissing
  split
  · assumption
  · simp

theorem addMissing_not_mem (df : Df) (c c' : String) (h1 : c' ∉ df.cols) (h2 : c' ≠ c) :
    c' ∉ (addMissing df c).cols := by
  unfold addMissing
  split
  · exact h1
  · simp [h1, h2]

theorem addMissing_getCell_pres (df : Df) (c : String) (hwf : df.WF) (c' : String)
    (hc' : c' ∈ df.cols) (i : Nat) :
    getCell (addMissing df c) i c' = getCell df i c' := by
  unfold addMissing
  split
  · rfl
  · unfold getCell
    simp only [List.get?_map]
    cases hrow : df.rows.get? i with
    | none => rfl
    | some r =>
      have hr : r ∈ df.rows := List.get?_mem hrow
      rcases cellAt_mem_isSome c' df.cols r hc' (hwf r hr) with ⟨v, hv⟩
      simp only [Option.map_some']
      rw [hv, cellAt_found_append [c] [none] c' v df.cols r hv]

theorem addMissing_getCell_new (df : Df) (c : String) (hwf : df.WF) (hc : c ∉ df.cols)
    (i : Nat) (hi : i < df.rows.length) :
    getCell (addMissing df c) i c = some none := by
  unfold addMissing
  rw [if_neg hc]
  unfold getCell
  simp only [List.get?_map]
  have hrow : df.rows.get? i = some (df.rows.get ⟨i, hi⟩) := List.get?_eq_get hi
  have hr : df.rows.get ⟨i, hi⟩ ∈ df.rows := List.get_mem _ _ _
  rw [hrow]
  simp only [Option.map_some']
  rw [cellAt_none_append [c] [none] c df.cols _ (hwf _ hr) (cellAt_not_mem c df.cols _ hc)]
  simp [cellAt]

theorem foldl_addMissing_spec :
    ∀ (L : List String) (df : Df), df.WF →
      ((L.foldl addMissing df).rows.length = df.rows.length)
      ∧ (L.foldl addMissing df).WF
      ∧ (∀ c, c ∈ df.cols → c ∈ (L.foldl addMissing df).cols)
      ∧ (∀ c, c ∈ L → c ∈ (L.foldl addMissing df).cols)
      ∧ (∀ c, c ∈ df.cols → ∀ i, getCell (L.foldl addMissing df) i c = getCell df i c)
      ∧ (∀ c, c ∈ L → c ∉ df.cols → ∀ i, i < df.rows.length →
          getCell (L.foldl addMissing df) i c = some none) := by
  intro L
  induction L with
  | nil =>
    intro df hwf
    refine ⟨rfl, hwf, fun c h => h, ?_, fun c h i => rfl, ?_⟩
    · intro c h; simp at h
    · intro c h; simp at h
  | cons c0 L' ih =>
    intro df hwf
    have hwf1 : (addMissing df c0).WF := addMissing_wf df c0 hwf
    obtain ⟨ihlen, ihwf, ihmono, ihmemL, ihpres, ihnew⟩ := ih (addMissing df c0) hwf1
    simp only [List.foldl_cons]
    refine ⟨ihlen.trans (addMissing_rows_length df c0), ihwf, ?_, ?_, ?_, ?_⟩
    · intro c hc
      exact ihmono c (addMissing_cols_mono df c0 c hc)
    · intro c hc
      rcases List.mem_cons.mp hc with rfl | hc'
      · exact ihmono c (addMissing_mem_self df c)
      · exact ihmemL c hc'
    · intro c hc i
      rw [ihpres c (addMissing_cols_mono df c0 c hc) i,
        addMissing_getCell_pres df c0 hwf c hc i]
    · intro c hc hnot i hi
      by_cases heq : c = c0
      · subst heq
        rw [ihpres c (addMissing_mem_self df c) i,
          addMissing_getCell_new df c hwf hnot i hi]
      · rcases List.mem_cons.mp hc with h1 | h1
        · exact absurd h1 heq
        · refine ihnew c h1 (addMissing_not_mem df c0 c hnot heq) i ?_
          rw [addMissing_rows_length df c0]
          exact hi

/-- C8: for every well-formed merged frame, the expected-column loop
injects every absent expected column filled entirely with null, never
errors, and leaves the record count, well-formedness, and every
pre-existing cell unchanged. -/
theorem C8_schema_injection :
    ∀ df : Df, df.WF →
      ((ensureExpected df).rows.length = df.rows.length)
      ∧ (ensureExpected df).WF
      ∧ (∀ c, c ∈ expectedCols → c ∈ (ensureExpected df).cols)
      ∧ (∀ c, c ∈ df.cols → ∀ i, getCell (ensureExpected df) i c = getCell df i c)
      ∧ (∀ c, c ∈ expectedCols → c ∉ df.cols → ∀ i, i < df.rows.length →
          getCell (ensureExpected df) i c = some none) := by
  intro df hwf
  obtain ⟨hlen, hwf2, _, hmemL, hpres, hnew⟩ := foldl_addMissing_spec expectedCols df hwf
  exact ⟨hlen, hwf2, hmemL, hpres, hnew⟩

/-- A concrete two-row, one-column frame used to witness C8. -/
def dfW : Df := Df.mk ["Station"] [[some "A"], [none]]

/-- Witness for C8 at a concrete frame: the injected `Board` column is
present and all-null, `Station` keeps its cells, and the row count is
still two. -/
theorem C8_schema_injection_witness :
    (ensureExpected dfW).rows.length = 2
    ∧ "Board" ∈ (ensureExpected dfW).cols
    ∧ getCell (ensureExpected dfW) 0 "Board" = some none
    ∧ getCell (ensureExpected dfW) 0 "Station" = some (some "A") := by
  have h := C8_schema_injection dfW (by intro r hr; fin_cases hr <;> rfl)
  refine ⟨h.1.trans rfl, h.2.2.1 "Board" (by decide), ?_, ?_⟩
  · exact h.2.2.2.2 "Board" (by decide) (by decide) 0 (by decide)
  · exact (h.2.2.2.1 "Station" (by decide) 0).trans rfl

/-! ### C2 and C10: derived minute metrics -/

/-- C2: with normalized timestamps, `Demanded`, `Granted` and `Availed`
are end-minus-start in seconds divided by 60 into a rational number of
minutes, `Burst` is `Granted - Availed`; a null operand makes the
result null with no default substituted; and a negative difference is
preserved as a negative number, never clamped. -/
theorem C2_metric_deriver :
    ∀ r : NormRow,
      (∀ e s : Int, r.reqEnd = some e → r.reqStart = some s →
        demanded r = some (((e - s : Int) : Rat) / 60))
      ∧ (r.reqEnd = none ∨ r.reqStart = none → demanded r = none)
      ∧ (∀ e s : Int, r.permEnd = some e → r.permStart = some s →
        granted r = some (((e - s : Int) : Rat) / 60))
      ∧ (r.permEnd = none ∨ r.permStart = none → granted r = none)
      ∧ (∀ e s : Int, r.clearTime = some e → r.permStart = some s →
        availed r = some (((e - s : Int) : Rat) / 60))
      ∧ (r.clearTime = none ∨ r.permStart = none → availed r = none)
      ∧ (∀ g a : Rat, granted r = some g → availed r = some a →
        burst r = some (g - a))
      ∧ (granted r = none ∨ availed r = none → burst r = none)
      ∧ (∀ e s : Int, r.reqEnd = some e → r.reqStart = some s → e < s →
        demanded r = some (((e - s : Int) : Rat) / 60) ∧ ((e - s : Int) : Rat) / 60 < 0) := by
  intro r
  refine ⟨?_, ?_, ?_, ?_, ?_, ?_, ?_, ?_, ?_⟩
  · intro e s he hs; simp [demanded, diffMinutes, he, hs]
  · rintro (h | h) <;> simp [demanded, diffMinutes, h]
  · intro e s he hs; simp [granted, diffMinutes, he, hs]
  · rintro (h | h) <;> simp [granted, diffMinutes, h]
  · intro e s he hs; simp [availed, diffMinutes, he, hs]
  · rintro (h | h) <;> simp [availed, diffMinutes, h]
  · intro g a hg ha; simp [burst, osub, hg, ha]
  · rintro (h | h) <;> simp [burst, osub, h]
  · intro e s he hs hlt
    refine ⟨by simp [demanded, diffMinutes, he, hs], ?_⟩
    refine div_neg_of_neg_of_pos ?_ (by norm_num)
    exact_mod_cast sub_neg.mpr hlt

/-- A concrete normalized row used to witness C2: requested window of
5400 seconds, permitted end present but permitted start null. -/
def rowC2 : NormRow :=
  NormRow.mk none (some "A") (some "S1") none none none none none none none none
    (some 0) (some 5400) none (some 7200) (some 3600) none "A/S1/S1/x/y/nan/z"

/-- Witness for C2 at `rowC2`: `Demanded` is the 5400-second window in
minutes, and the null `PermittedStartTime` makes `Granted` null. -/
theorem C2_metric_deriver_witness :
    demanded rowC2 = some (((5400 - 0 : Int) : Rat) / 60)
    ∧ granted rowC2 = none := by
  refine ⟨(C2_metric_deriver rowC2).1 5400 0 rfl rfl, ?_⟩
  exact (C2_metric_deriver rowC2).2.2.2.1 (Or.inr rfl)

/-- C10: whenever `PermittedStartTime` is null, `Burst` is null even if
`PermittedEndTime` and `ClearTime` are both present, because `Burst` is
computed as `Granted - Availed` and the null start nullifies both
operands — although the mathematically equivalent
`PermittedEndTime - ClearTime` would be defined. -/
theorem C10_burst_null_propagation :
    ∀ (r : NormRow) (pe ct : Int),
      r.permStart = none → r.permEnd = some pe → r.clearTime = some ct →
      granted r = none ∧ availed r = none ∧ burst r = none
      ∧ diffMinutes r.permEnd r.clearTime = some (((pe - ct : Int) : Rat) / 60) := by
  intro r pe ct hps hpe hct
  have hg : granted r = none := by simp [granted, diffMinutes, hps, hpe]
  have ha : availed r = none := by simp [availed, diffMinutes, hps, hct]
  refine ⟨hg, ha, ?_, by simp [diffMinutes, hpe, hct]⟩
  simp [burst, osub, hg]

/-- A concrete normalized row used to witness C10: permitted start
null, permitted end and clear time present. -/
def rowC10 : NormRow :=
  NormRow.mk none none none none none none none none none none none
    none none none (some 7200) (some 3600) none "id10"

/-- Witness for C10 at `rowC10`: `Burst` is null although
`PermittedEndTime - ClearTime` would be a defined duration. -/
theorem C10_burst_null_propagation_witness :
    burst rowC10 = none
    ∧ diffMinutes rowC10.permEnd rowC10.clearTime = some (((7200 - 3600 : Int) : Rat) / 60) := by
  have h := C10_burst_null_propagation rowC10 7200 3600 rfl rfl rfl
  exact ⟨h.2.2.1, h.2.2.2⟩

/-! ### C3 and C7: filter engine and snapshot export -/

theorem foldExact_eq_filter (sel : FilterLabel → List String) :
    ∀ (labs : List FilterLabel) (rows : List NormRow),
      labs.foldl
        (fun acc lab =>
          if (sel lab).isEmpty then acc
          else acc.filter (fun r => (sel lab).contains (cellStr (fieldOf r lab))))
        rows
      = rows.filter (fun r =>
          labs.all fun lab =>
            (sel lab).isEmpty || (sel lab).contains (cellStr (fieldOf r lab))) := by
  intro labs
  induction labs with
  | nil => intro rows; simp
  | cons l ls ih =>
    intro rows
    simp only [List.foldl_cons]
    by_cases h : (sel l).isEmpty
    · rw [if_pos h, ih]
      refine List.filter_congr ?_
      intro r _
      simp [List.all_cons, h]
    · rw [if_neg h, ih, List.filter_filter]
      refine List.filter_congr ?_
      intro r _
      simp [List.all_cons, h, Bool.and_comm]

/-- C3: the Filter Engine returns exactly the records passing every
label's exact-match filter (an empty accepted set is vacuously true)
and the Remark search predicate, conjunctively; the result is an
order-preserving sublist of the input (the input list itself is
untouched, the embedding being purely functional); the Remark predicate
holds exactly when the query is empty or the Remark text contains the
query case-insensitively as a literal substring, and a null Remark
never matches a non-empty query. -/
theorem C3_filter_engine :
    ∀ (rows : List NormRow) (sel : FilterLabel → List String) (q : String),
      dfView rows sel q = rows.filter (passesAll sel q)
      ∧ (dfView rows sel q).Sublist rows
      ∧ (∀ r : NormRow, remarkPass q r = true ↔
          (q = "" ∨ ∃ s, r.remark = some s ∧ containsCI s q = true))
      ∧ (∀ r : NormRow, q ≠ "" → r.remark = none → remarkPass q r = false) := by
  intro rows sel q
  have hmain : dfView rows sel q = rows.filter (passesAll sel q) := by
    by_cases hq : q = ""
    · simp only [dfView, applyExact, if_pos hq, foldExact_eq_filter]
      refine List.filter_congr ?_
      intro r _
      simp [passesAll, remarkPass, hq]
    · simp only [dfView, applyExact, if_neg hq, foldExact_eq_filter, List.filter_filter]
      refine List.filter_congr ?_
      intro r _
      simp [passesAll, remarkPass, hq, Bool.and_comm]
  refine ⟨hmain, ?_, ?_, ?_⟩
  · rw [hmain]; exact List.filter_sublist rows
  · intro r
    by_cases hq : q = ""
    · simp [remarkPass, hq]
    · cases hrem : r.remark with
      | none => simp [remarkPass, hq, remarkMatches, hrem]
      | some s => simp [remarkPass, hq, remarkMatches, hrem]
  · intro r hq hrem
    simp [remarkPass, hq, remarkMatches, hrem]

/-- Concrete rows used to witness C3. -/
def rowC3A : NormRow :=
  NormRow.mk none (some "A") none none none none none (some "Track Failure") none none none
    none none none none none none "idA"

/-- Second concrete row used to witness C3 (different Station, null Remark). -/
def rowC3B : NormRow :=
  NormRow.mk none (some "B") none none none none none none none none none
    none none none none none none "idB"

/-- The selection map used to witness C3: Station must be `A`. -/
def selC3 : FilterLabel → List String
  | .stationL => ["A"]
  | _ => []

/-- Witness for C3 at concrete data: a `Station = A` filter plus a
case-insensitive `failure` search keeps exactly the first row, the
result agrees with the conjunctive single-pass filter, and the null
Remark of the second row fails the non-empty query. -/
theorem C3_filter_engine_witness :
    dfView [rowC3A, rowC3B] selC3 "failure" = [rowC3A]
    ∧ dfView [rowC3A, rowC3B] selC3 "failure"
        = List.filter (passesAll selC3 "failure") [rowC3A, rowC3B]
    ∧ remarkPass "failure" rowC3B = false := by
  refine ⟨by decide, (C3_filter_engine [rowC3A, rowC3B] selC3 "failure").1, ?_⟩
  exact (C3_filter_engine [rowC3A, rowC3B] selC3 "failure").2.2.2 rowC3B (by decide) rfl

/-- First concrete row used for the C7 counterexample. -/
def rowC7A : NormRow :=
  NormRow.mk none (some "A") none none none none none none none none none
    none none none none none none "idA7"

/-- Second concrete row used for the C7 counterexample. -/
def rowC7B : NormRow :=
  NormRow.mk none (some "B") none none none none none none none none none
    none none none none none none "idB7"

/-- The selection map of the C7 counterexample: Station must be `A`. -/
def selC7 : FilterLabel → List String
  | .stationL => ["A"]
  | _ => []

/-- C7 counterexample: the snapshot written to `BlockAllData.csv` is
`df_view`, the filtered subset — with a `Station = A` filter active the
export of a two-row set drops the second row, so it is not the
unfiltered record set the claim describes. -/
theorem C7_snapshot_counterexample :
    snapshotExport [rowC7A, rowC7B] selC7 "" ≠ [rowC7A, rowC7B]
    ∧ snapshotExport [rowC7A, rowC7B] selC7 "" = [rowC7A] := by
  refine ⟨?_, by decide⟩
  intro h
  exact absurd h (by decide)

/-- C7 (amended): the snapshot export written on each recomputation is
the current filtered view — an order-preserving subset of the
post-normalization record set, with every retained record (and hence
its derived and Identity data) unchanged; it equals the whole record
set exactly in the default state, when no filter selection is active
and the search query is empty. -/
theorem C7_snapshot_export :
    (∀ rows : List NormRow, snapshotExport rows noSelections "" = rows)
    ∧ (∀ (rows : List NormRow) (sel : FilterLabel → List String) (q : String),
        (snapshotExport rows sel q).Sublist rows) := by
  constructor
  · intro rows
    simp only [snapshotExport, dfView, applyExact, if_pos rfl, foldExact_eq_filter]
    refine List.filter_eq_self.mpr ?_
    intro r _
    simp [noSelections]
  · intro rows sel q
    simp only [snapshotExport, dfView, applyExact, foldExact_eq_filter]
    split
    · exact List.filter_sublist rows
    · exact (List.filter_sublist _).trans (List.filter_sublist rows)

/-! ### C4: grouped aggregation -/

theorem dedupByGo_mem_key {α β : Type} [DecidableEq β] (f : α → β) :
    ∀ (l : List α) (seen : List β) (a : α),
      a ∈ l → f a ∉ seen → f a ∈ (dedupByGo f seen l).map f := by
  intro l
  induction l with
  | nil => intro seen a ha; simp at ha
  | cons x xs ih =>
    intro seen a ha hfa
    rcases List.mem_cons.mp ha with rfl | ha'
    · simp only [dedupByGo, if_neg hfa, List.map_cons]
      exact List.mem_cons_self _ _
    · by_cases h : f x ∈ seen
      · simp only [dedupByGo, if_pos h]
        exact ih seen a ha' hfa
      · simp only [dedupByGo, if_neg h, List.map_cons]
        by_cases heq : f a = f x
        · exact heq ▸ List.mem_cons_self _ _
        · refine List.mem_cons_of_mem _ (ih (f x :: seen) a ha' ?_)
          simp only [List.mem_cons, not_or]
          exact ⟨heq, hfa⟩

theorem groupedTable_keys {R : Type} (ks : List (R → Option String))
    (ms : List (R → Option Rat)) (rows : List R) :
    (groupedTable ks ms rows).map GRow.key = groupKeys ks rows := by
  simp [groupedTable, List.map_map, Function.comp_def]

/-- C4: for every record set and non-empty ordered list of group-by
accessors, the grouped table has exactly one output row per distinct
key tuple (`Nodup` keys), every input row's key tuple — null cells
included, so null rows are grouped, not excluded — appears as a group,
each group's `Rows` count is the group's cardinality and each requested
metric is the skip-null sum over the group; and in the displayed
column layout `Rows` always comes first, before the group-by and metric
columns, whichever metrics were requested. -/
theorem C4_aggregator :
    ∀ (R : Type) (ks : List (R → Option String)) (ms : List (R → Option Rat))
      (rows : List R) (gcols mcols : List String),
      ks ≠ [] → "Rows" ∉ gcols → "Rows" ∉ mcols →
      ((groupedTable ks ms rows).map GRow.key).Nodup
      ∧ (∀ r ∈ rows, ∃ g ∈ groupedTable ks ms rows, g.key = keyOf ks r)
      ∧ (∀ g ∈ groupedTable ks ms rows,
          g.rowsCount = (groupOf ks g.key rows).length
          ∧ g.sums = ms.map (fun m => sumMetric m (groupOf ks g.key rows)))
      ∧ displayColumns gcols mcols = "Rows" :: (gcols ++ mcols)
      ∧ (displayColumns gcols mcols).head? = some "Rows" := by
  intro R ks ms rows gcols mcols _ hg hm
  have hdisp : displayColumns gcols mcols = "Rows" :: (gcols ++ mcols) := by
    simp only [displayColumns, List.filter_append]
    have h1 : gcols.filter (fun c => c != "Rows") = gcols :=
      List.filter_eq_self.mpr fun a ha => by
        simp only [bne_iff_ne, ne_eq, decide_eq_true_eq]
        exact fun h => hg (h ▸ ha)
    have h2 : mcols.filter (fun c => c != "Rows") = mcols :=
      List.filter_eq_self.mpr fun a ha => by
        simp only [bne_iff_ne, ne_eq, decide_eq_true_eq]
        exact fun h => hm (h ▸ ha)
    simp [h1, h2]
  refine ⟨?_, ?_, ?_, hdisp, by rw [hdisp]; rfl⟩
  · rw [groupedTable_keys]
    simpa [groupKeys] using dedupByGo_map_nodup id (rows.map (keyOf ks)) []
  · intro r hr
    have hk : keyOf ks r ∈ groupKeys ks rows := by
      simpa [groupKeys] using
        dedupByGo_mem_key id (rows.map (keyOf ks)) [] (keyOf ks r)
          (List.mem_map_of_mem _ hr) (by simp)
    refine ⟨GRow.mk (groupOf ks (keyOf ks r) rows).length (keyOf ks r)
      (ms.map fun m => sumMetric m (groupOf ks (keyOf ks r) rows)), ?_, rfl⟩
    exact List.mem_map_of_mem _ hk
  · intro g hgmem
    rcases List.mem_map.mp hgmem with ⟨k, _, rfl⟩
    exact ⟨rfl, rfl⟩

/-- Group-by accessor for the `Type` column. -/
def typeKey : NormRow → Option String := fun r => r.typeCol

/-- A concrete row with `Type = X` used to witness C4. -/
def rowC4X : NormRow :=
  NormRow.mk none none none none (some "X") none none none none none none
    none none none none none none "id4X"

/-- A concrete row with a null `Type` used to witness C4. -/
def rowC4Y : NormRow :=
  NormRow.mk none none none none none none none none none none none
    none none none none none none "id4Y"

/-- Witness for C4 at concrete data: grouping two rows (one with a null
`Type`) by `Type` summing `Demanded` yields pairwise-distinct group
keys, the null-`Type` row still gets a group, and `Rows` is the first
display column. -/
theorem C4_aggregator_witness :
    ((groupedTable [typeKey] [demanded] [rowC4X, rowC4Y]).map GRow.key).Nodup
    ∧ (∃ g ∈ groupedTable [typeKey] [demanded] [rowC4X, rowC4Y],
        g.key = keyOf [typeKey] rowC4Y)
    ∧ displayColumns ["Type"] ["Demanded"] = "Rows" :: (["Type"] ++ ["Demanded"]) := by
  have h := C4_aggregator NormRow [typeKey] [demanded] [rowC4X, rowC4Y]
    ["Type"] ["Demanded"] (List.cons_ne_nil _ _) (by decide) (by decide)
  exact ⟨h.1, h.2.1 rowC4Y (by simp), h.2.2.2.1⟩

/-! ### C5: temporal normalization -/

theorem trimL_cons_ws (c : Char) (l : List Char) (h : wsChar c = true) :
    trimL (c :: l) = trimL l := by
  simp [trimL, List.dropWhile_cons, h]

theorem trimL_append_ws (c : Char) (l : List Char) (h : wsChar c = true) :
    trimL (l ++ [c]) = trimL l := by
  unfold trimL
  rw [List.dropWhile_append]
  cases hdw : List.dropWhile wsChar l with
  | nil => simp [List.dropWhile_cons, h]
  | cons x xs => simp [List.dropWhile_cons, h]

theorem parseCell_cons_ws (c : Char) (l : List Char) (h : wsChar c = true) :
    parseCell (c :: l) = parseCell l := by
  simp [parseCell, trimL_cons_ws c l h]

theorem parseCell_append_ws (c : Char) (l : List Char) (h : wsChar c = true) :
    parseCell (l ++ [c]) = parseCell l := by
  simp [parseCell, trimL_append_ws c l h]

/-- A raw row whose `Extension End Time` cell is unparseable text, used
to refute C5 as stated. -/
def rawC5 : RawRow :=
  RawRow.mk none none none none none none none none none none none
    (some "not a date") none none none none none

/-- C5 counterexample: `time_cols` (`Block.py` lines 58-62) does not
include `Extension End Time`, so the normalizer leaves that field as
raw text — an unparseable string in it is retained verbatim instead of
becoming null, contrary to the claim's seven-field designated set. -/
theorem C5_normalizer_counterexample :
    (normalizeRow rawC5).extensionEndTime = some "not a date"
    ∧ (normalizeRow rawC5).extensionEndTime ≠ none
    ∧ parseCell "not a date".data = none := by
  exact ⟨rfl, by decide, by decide⟩

/-- C5 (amended): the designated time-field set is the six `time_cols`
columns — RequestedStartTime, RequestedEndTime, PermittedStartTime,
PermittedEndTime, ClearTime and BlockRequestedDate; ExtensionEndTime is
left as raw text.  For the six, the raw value is parsed into a
canonical timestamp or null: surrounding whitespace is irrelevant, an
unparseable string (and a residual `-` null token) produces null
without aborting, and two-field-order ambiguity is resolved by
preferring the day-first interpretation, falling back to month-first
only when day-first is invalid. -/
theorem C5_temporal_normalizer :
    (∀ r : RawRow,
        (normalizeRow r).reqStart = cleanParse r.reqStartRaw
        ∧ (normalizeRow r).reqEnd = cleanParse r.reqEndRaw
        ∧ (normalizeRow r).permStart = cleanParse r.permStartRaw
        ∧ (normalizeRow r).permEnd = cleanParse r.permEndRaw
        ∧ (normalizeRow r).clearTime = cleanParse r.clearTimeRaw
        ∧ (normalizeRow r).blockReqDate = cleanParse r.blockReqDate
        ∧ (normalizeRow r).extensionEndTime = r.extensionEndTime)
    ∧ (∀ (c : Char) (l : List Char), wsChar c = true →
        parseCell (c :: l) = parseCell l ∧ parseCell (l ++ [c]) = parseCell l)
    ∧ parseCell "hello".data = none
    ∧ parseCell "-".data = none
    ∧ (∀ a b y : Nat, validDMY a b y = true → resolveDM a b y = some (a, b))
    ∧ (∀ a b y : Nat, validDMY a b y = false → validDMY b a y = true →
        resolveDM a b y = some (b, a))
    ∧ parseCell " 03/04/2024 10:00 ".data = some (epochOf 2024 4 3 36000) := by
  refine ⟨?_, ?_, by decide, by decide, ?_, ?_, by decide⟩
  · intro r
    exact ⟨rfl, rfl, rfl, rfl, rfl, rfl, rfl⟩
  · intro c l h
    exact ⟨parseCell_cons_ws c l h, parseCell_append_ws c l h⟩
  · intro a b y h
    simp [resolveDM, h]
  · intro a b y h1 h2
    simp [resolveDM, h1, h2]

/-- Witness for C5 at concrete inputs: a leading space does not change
the parse of `3/4/2024`; the ambiguous `03/04` resolves day-first to
3 April; and `1/31` falls back to month-first (31 January). -/
theorem C5_temporal_normalizer_witness :
    parseCell (' ' :: "3/4/2024".data) = parseCell "3/4/2024".data
    ∧ validDMY 3 4 2024 = true
    ∧ resolveDM 3 4 2024 = some (3, 4)
    ∧ resolveDM 1 31 2024 = some (31, 1) := by
  refine ⟨(C5_temporal_normalizer.2.1 ' ' "3/4/2024".data (by decide)).1, by decide, ?_, ?_⟩
  · exact C5_temporal_normalizer.2.2.2.2.1 3 4 2024 (by decide)
  · exact C5_temporal_normalizer.2.2.2.2.2.1 1 31 2024 (by decide) (by decide)

/-! ### C6: the HH:MM formatter -/

theorem ratFloor_eq_intFloor (q : Rat) : q.floor = ⌊q⌋ :=
  (Rat.floor_def' q).trans Rat.floor_def.symm

theorem pyRound_intCast (n : Int) : pyRound ((n : Int) : Rat) = n := by
  unfold pyRound
  rw [ratFloor_eq_intFloor, Int.floor_intCast, sub_self]
  rw [if_pos (by norm_num)]

theorem pyRound_nearest (x : Rat) : |((pyRound x : Int) : Rat) - x| ≤ 1 / 2 := by
  have h0 : ((⌊x⌋ : Int) : Rat) ≤ x := Int.floor_le x
  have h1 : x < ((⌊x⌋ : Int) : Rat) + 1 := Int.lt_floor_add_one x
  unfold pyRound
  rw [ratFloor_eq_intFloor]
  split_ifs with ha hb hc
  · rw [abs_le]
    constructor <;> linarith
  · rw [abs_le]
    push_cast
    constructor <;> linarith
  · have heq : x - ((⌊x⌋ : Int) : Rat) = 1 / 2 := le_antisymm (not_lt.mp hb) (not_lt.mp ha)
    rw [abs_le]
    constructor <;> linarith
  · have heq : x - ((⌊x⌋ : Int) : Rat) = 1 / 2 := le_antisymm (not_lt.mp hb) (not_lt.mp ha)
    rw [abs_le]
    push_cast
    constructor <;> linarith

/-- C6 counterexample: the formatter is not magnitude-based on negative
input — Python's floor `divmod` makes `-90` minutes render as `-2:30`
(hours `⌊-90/60⌋ = -2`, residue `30`), not as the sign-prefixed
magnitude `-01:30` the claim describes. -/
theorem C6_formatter_counterexample :
    minutes_to_hhmm (some (-90 : Rat)) = "-2:30"
    ∧ minutes_to_hhmm (some (-90 : Rat)) ≠ "-01:30" := by
  have hc : (-90 : Rat) = ((-90 : Int) : Rat) := by norm_num
  have he : minutes_to_hhmm (some ((-90 : Int) : Rat))
      = pad2 (Int.fdiv (-90) 60) ++ ":" ++ pad2 (Int.fmod (-90) 60) := by
    show pad2 (Int.fdiv (pyRound ((-90 : Int) : Rat)) 60) ++ ":"
        ++ pad2 (Int.fmod (pyRound ((-90 : Int) : Rat)) 60)
      = pad2 (Int.fdiv (-90) 60) ++ ":" ++ pad2 (Int.fmod (-90) 60)
    rw [pyRound_intCast (-90)]
  rw [hc, he]
  exact ⟨by decide, by decide⟩

/-- C6 (amended): null formats to the empty string and 90.0 minutes to
`01:30`; a non-null value is rounded to the nearest whole minute
(within half a minute, half-to-even at ties) and split by floor
division into hours and a minute residue in `[0, 60)`, each zero-padded
to width two with the sign counting toward the width — so a negative
input yields a floor-based rendering such as `-2:30` for −90, not a
sign-prefixed magnitude pair. -/
theorem C6_formatter :
    minutes_to_hhmm none = ""
    ∧ (∀ x : Rat, minutes_to_hhmm (some x)
        = pad2 (Int.fdiv (pyRound x) 60) ++ ":" ++ pad2 (Int.fmod (pyRound x) 60))
    ∧ (∀ x : Rat, |((pyRound x : Int) : Rat) - x| ≤ 1 / 2)
    ∧ (∀ x : Rat, pyRound x = 60 * Int.fdiv (pyRound x) 60 + Int.fmod (pyRound x) 60
        ∧ 0 ≤ Int.fmod (pyRound x) 60 ∧ Int.fmod (pyRound x) 60 < 60)
    ∧ minutes_to_hhmm (some (90 : Rat)) = "01:30"
    ∧ minutes_to_hhmm (some (-90 : Rat)) = "-2:30" := by
  refine ⟨rfl, fun x => rfl, pyRound_nearest, ?_, ?_, ?_⟩
  · intro x
    refine ⟨(Int.fdiv_add_fmod (pyRound x) 60).symm, ?_, Int.fmod_lt_of_pos _ (by norm_num)⟩
    rw [Int.fmod_eq_emod _ (by norm_num)]
    exact Int.emod_nonneg _ (by norm_num)
  · have hc : (90 : Rat) = ((90 : Int) : Rat) := by norm_num
    have he : minutes_to_hhmm (some ((90 : Int) : Rat))
        = pad2 (Int.fdiv 90 60) ++ ":" ++ pad2 (Int.fmod 90 60) := by
      show pad2 (Int.fdiv (pyRound ((90 : Int) : Rat)) 60) ++ ":"
          ++ pad2 (Int.fmod (pyRound ((90 : Int) : Rat)) 60)
        = pad2 (Int.fdiv 90 60) ++ ":" ++ pad2 (Int.fmod 90 60)
      rw [pyRound_intCast 90]
    rw [hc, he]
    decide
  · have hc : (-90 : Rat) = ((-90 : Int) : Rat) := by norm_num
    have he : minutes_to_hhmm (some ((-90 : Int) : Rat))
        = pad2 (Int.fdiv (-90) 60) ++ ":" ++ pad2 (Int.fmod (-90) 60) := by
      show pad2 (Int.fdiv (pyRound ((-90 : Int) : Rat)) 60) ++ ":"
          ++ pad2 (Int.fmod (pyRound ((-90 : Int) : Rat)) 60)
        = pad2 (Int.fdiv (-90) 60) ++ ":" ++ pad2 (Int.fmod (-90) 60)
      rw [pyRound_intCast (-90)]
    rw [hc, he]
    decide

end Block
